import Mathlib

/-!
Verification of the diff parsing and selective patch reconstruction engine
of the repository (file src/app/out-of-memory-monitor-plugin.ts, class
LocalGitOperations together with the Diff data model).  Strings are
modelled as lists of characters; the JavaScript string primitives used by
the source (indexOf, lastIndexOf, split, substr, substring, trim,
startsWith, parseInt) are given faithful executable counterparts.  A
JavaScript number field that can hold NaN (the result of parseInt on an
absent regex group) is modelled as Option Int with none standing for NaN.
-/

namespace Desktop

/-- True when the first list is an initial segment of the second
(JavaScript startsWith, also the building block of indexOf). -/
def leadsWith : List Char → List Char → Bool
  | [], _ => true
  | _ :: _, [] => false
  | p :: ps, c :: cs => p == c && leadsWith ps cs

/-- JavaScript String.indexOf(pat, start): the least position at or after
start where pat occurs, none when there is no occurrence. -/
def jsIndexOfPat (s pat : List Char) (start : Nat) : Option Nat :=
  (List.range (s.length + 1)).find? (fun i => decide (start ≤ i) && leadsWith pat (s.drop i))

/-- JavaScript String.indexOf(c, start) for a one-character pattern. -/
def jsIndexOfChar (s : List Char) (c : Char) (start : Nat) : Option Nat :=
  jsIndexOfPat s [c] start

/-- JavaScript String.lastIndexOf(pat): the greatest position where pat
occurs, none when there is no occurrence. -/
def jsLastIndexOfPat (s pat : List Char) : Option Nat :=
  ((List.range (s.length + 1)).filter (fun i => leadsWith pat (s.drop i))).getLast?

/-- JavaScript String.split(c).  Always returns at least one piece; a
trailing separator yields a trailing empty piece, as in JavaScript. -/
def jsSplit (c : Char) : List Char → List (List Char)
  | [] => [[]]
  | x :: xs =>
    if x = c then [] :: jsSplit c xs
    else
      match jsSplit c xs with
      | [] => [[x]]
      | y :: ys => (x :: y) :: ys

/-- The whitespace characters stripped by JavaScript String.trim (ASCII part). -/
def isJsWhitespace (c : Char) : Bool :=
  c == ' ' || c == '\t' || c == '\n' || c == '\r' || c == '\x0B' || c == '\x0C'

/-- JavaScript String.trim. -/
def jsTrim (s : List Char) : List Char :=
  ((s.dropWhile isJsWhitespace).reverse.dropWhile isJsWhitespace).reverse

/-- Value of a nonempty string of decimal digits (the digit strings handed
to parseInt by the hunk-header regex match). -/
def digitsToNat (ds : List Char) : Nat :=
  ds.foldl (fun acc c => acc * 10 + (c.toNat - '0'.toNat)) 0

/-- Successor on a JavaScript number that may be NaN: NaN + 1 is NaN. -/
def jsAdd1 (o : Option Int) : Option Int := o.map (· + 1)

/-- Subtraction of an ordinary number from a JavaScript number that may be
NaN: NaN - b is NaN. -/
def jsSub (a : Option Int) (b : Int) : Option Int := a.map (· - b)

/-- Rendering of a JavaScript number in template interpolation: NaN prints
as the three characters NaN. -/
def renderNum : Option Int → List Char
  | none => "NaN".data
  | some n => (toString n).data

/-- Source enum DiffLineType: what a line in the diff represents. -/
inductive DiffLineType
  | Context
  | Add
  | Delete
  | Hunk
deriving DecidableEq, Repr

/-- Source class DiffLine: details of one line of the diff.  The selected
field is mutable in the source and is initialised to false by the
constructor; mutation is modelled by returning updated values. -/
structure DiffLine where
  text : List Char
  type : DiffLineType
  oldLineNumber : Option Int
  newLineNumber : Option Int
  selected : Bool
deriving DecidableEq, Repr

/-- Source class DiffSectionRange: the four numbers of a hunk header.  A
field is none exactly when the corresponding JavaScript number is NaN. -/
structure DiffSectionRange where
  oldStartLine : Option Int
  oldEndLine : Option Int
  newStartLine : Option Int
  newEndLine : Option Int
deriving DecidableEq, Repr

/-- Source DiffSection.mapToDiffLineType: infer the type of a diff line
from its first character. -/
def mapToDiffLineType (text : List Char) : DiffLineType :=
  match text with
  | '-' :: _ => DiffLineType.Delete
  | '+' :: _ => DiffLineType.Add
  | _ => DiffLineType.Context

/-- The line-building part of the DiffSection constructor: classify each
raw line and assign old/new line numbers with two rolling counters that
are pre-incremented, exactly as the source does (lines starting with two
at-signs become Hunk lines and advance no counter). -/
def mkDiffLines (oldC newC : Option Int) : List (List Char) → List DiffLine
  | [] => []
  | text :: rest =>
    if leadsWith ['@', '@'] text then
      ⟨text, DiffLineType.Hunk, none, none, false⟩ :: mkDiffLines oldC newC rest
    else
      match mapToDiffLineType text with
      | DiffLineType.Delete =>
        ⟨text, DiffLineType.Delete, jsAdd1 oldC, none, false⟩ :: mkDiffLines (jsAdd1 oldC) newC rest
      | DiffLineType.Add =>
        ⟨text, DiffLineType.Add, none, jsAdd1 newC, false⟩ :: mkDiffLines oldC (jsAdd1 newC) rest
      | _ =>
        ⟨text, DiffLineType.Context, jsAdd1 oldC, jsAdd1 newC, false⟩ ::
          mkDiffLines (jsAdd1 oldC) (jsAdd1 newC) rest

/-- Source class DiffSection. -/
structure DiffSection where
  range : DiffSectionRange
  lines : List DiffLine
  startDiffSection : Nat
  endDiffSection : Nat
deriving DecidableEq, Repr

/-- The DiffSection constructor: the rolling counters are seeded at the
range's old and new start lines. -/
def DiffSection.make (range : DiffSectionRange) (rawLines : List (List Char))
    (s e : Nat) : DiffSection :=
  ⟨range, mkDiffLines range.oldStartLine range.newStartLine rawLines, s, e⟩

/-- Source class Diff: the ordered sections of one file's diff. -/
structure Diff where
  sections : List DiffSection
deriving DecidableEq, Repr

/-- Source Diff.setAllLines: mutates the selected flag of every Add and
Delete line (modelled by returning the updated Diff). -/
def setAllLines (d : Diff) (inc : Bool) : Diff :=
  ⟨d.sections.map (fun sec =>
    ⟨sec.range,
     sec.lines.map (fun line =>
       if line.type = DiffLineType.Add ∨ line.type = DiffLineType.Delete then
         ⟨line.text, line.type, line.oldLineNumber, line.newLineNumber, inc⟩
       else line),
     sec.startDiffSection, sec.endDiffSection⟩)⟩

/-- Modelled from the spec: the FileStatus enum lives in ../models/status,
which is not part of the sources; its five values are listed in the spec
and used by mapStatus and the reconstructor's path selection. -/
inductive FileStatus
  | New
  | Modified
  | Deleted
  | Renamed
  | Conflicted
deriving DecidableEq, Repr

/-- Source LocalGitOperations.mapStatus: map the raw status text from git
to an app-friendly value; unrecognised codes fall through to Modified. -/
def mapStatus (rawStatus : List Char) : FileStatus :=
  let status := jsTrim rawStatus
  if status = "M".data then FileStatus.Modified
  else if status = "A".data then FileStatus.New
  else if status = "D".data then FileStatus.Deleted
  else if status = "R".data then FileStatus.Renamed
  else if status = "RM".data then FileStatus.Renamed
  else if status = "RD".data then FileStatus.Conflicted
  else if status = "DD".data then FileStatus.Conflicted
  else if status = "AU".data then FileStatus.Conflicted
  else if status = "UD".data then FileStatus.Conflicted
  else if status = "UA".data then FileStatus.Conflicted
  else if status = "DU".data then FileStatus.Conflicted
  else if status = "AA".data then FileStatus.Conflicted
  else if status = "UU".data then FileStatus.Conflicted
  else if status = "??".data then FileStatus.New
  else FileStatus.Modified

/-- The fourteen status codes recognised by mapStatus. -/
def statusCodes : List (List Char) :=
  ["M".data, "A".data, "D".data, "R".data, "RM".data, "RD".data, "DD".data,
   "AU".data, "UD".data, "UA".data, "DU".data, "AA".data, "UU".data, "??".data]

/-- Modelled from the spec: the DiffSelection class lives in
../models/status, which is not part of the sources.  The constructor is
called as DiffSelection(true, empty map); get resolves an override when
present and falls back to the include-all default otherwise; isIncludeAll
is true iff no overrides exist and the default is include. -/
structure DiffSelection where
  includeAll : Bool
  selectedLines : List (Nat × Bool)

/-- Modelled from the spec: resolve a position against the overrides with
default fallback. -/
def DiffSelection.get (d : DiffSelection) (pos : Nat) : Bool :=
  (d.selectedLines.lookup pos).getD d.includeAll

/-- Modelled from the spec: true iff no overrides exist and the default is
include. -/
def DiffSelection.isIncludeAll (d : DiffSelection) : Bool :=
  d.selectedLines.isEmpty && d.includeAll

/-- Source line 372 and 420: s.lines.slice(1, s.lines.length - 1), the
section body without the header line and without the final boundary line. -/
def sliceBody (lines : List DiffLine) : List DiffLine :=
  (lines.drop 1).dropLast

/-- The per-line loop of createPatchForNewFile (source lines 371-386):
context lines are always copied; other lines are copied, and counted, only
when the selection map holds true at index i + 1.  Returns the patch body
and linesCounted. -/
def patchBodyNewGo (sel : List (Nat × Bool)) : Nat → List DiffLine → List Char × Nat
  | _, [] => ([], 0)
  | i, l :: rest =>
    let t := patchBodyNewGo sel (i + 1) rest
    if l.type = DiffLineType.Context then
      (l.text ++ '\n' :: t.1, t.2)
    else
      match sel.lookup (i + 1) with
      | some true => (l.text ++ '\n' :: t.1, t.2 + 1)
      | _ => t

/-- The per-line loop of applyPatchToIndex for a modified file (source
lines 419-440): context lines are copied; a line whose index is in the
selection map is copied when true; when false a Delete line is re-emitted
with its leading character replaced by a space and linesSkipped decreases,
any other line is dropped and linesSkipped increases; a line absent from
the map is dropped silently.  Returns the patch body and linesSkipped. -/
def patchBodyModGo (sel : List (Nat × Bool)) : Nat → List DiffLine → List Char × Int
  | _, [] => ([], 0)
  | i, l :: rest =>
    let t := patchBodyModGo sel (i + 1) rest
    if l.type = DiffLineType.Context then
      (l.text ++ '\n' :: t.1, t.2)
    else
      match sel.lookup (i + 1) with
      | some true => (l.text ++ '\n' :: t.1, t.2)
      | some false =>
        if l.type = DiffLineType.Delete then
          ((' ' :: l.text.drop 1) ++ '\n' :: t.1, t.2 - 1)
        else
          (t.1, t.2 + 1)
      | none => t

/-- Body and linesCounted for one section on the new-file path. -/
def createPatchForNewFileSection (sel : List (Nat × Bool)) (s : DiffSection) :
    List Char × Nat :=
  patchBodyNewGo sel 0 (sliceBody s.lines)

/-- Body and linesSkipped for one section on the modified-file path. -/
def applyPatchSectionMod (sel : List (Nat × Bool)) (s : DiffSection) :
    List Char × Int :=
  patchBodyModGo sel 0 (sliceBody s.lines)

/-- Source line 447: newLineCount = s.range.oldEndLine - linesSkipped. -/
def modNewLineCount (sel : List (Nat × Bool)) (s : DiffSection) : Option Int :=
  jsSub s.range.oldEndLine (applyPatchSectionMod sel s).2

/-- The text of s.lines[0], the header line of a section. -/
def headerLineOf (s : DiffSection) : List Char :=
  (s.lines.headD ⟨[], DiffLineType.Context, none, none, false⟩).text

/-- Source lines 390-391 and 444-445: the trailing context text of the
original header, everything after the last two at-signs. -/
def additionalTextOf (headerText : List Char) : List Char :=
  match jsLastIndexOfPat headerText ['@', '@'] with
  | none => headerText.drop 1
  | some i => headerText.drop (i + 2)

/-- The complete patch text for one section on the new-file path (source
line 395): dev-null old header, b-path new header, synthesized hunk header
with the recomputed new count, then the body. -/
def newFileSectionPatch (path : List Char) (sel : List (Nat × Bool))
    (s : DiffSection) : List Char :=
  let bc := createPatchForNewFileSection sel s
  "--- /dev/null\n+++ b/".data ++ path ++ '\n' ::
    ("@@ -".data ++ renderNum s.range.oldStartLine ++ ',' :: renderNum s.range.oldEndLine ++
     " +".data ++ renderNum s.range.newStartLine ++ ',' :: (toString bc.2).data ++
     " @@ ".data ++ additionalTextOf (headerLineOf s) ++ ['\n']) ++ bc.1

/-- Source createPatchForNewFile: the concatenation of all sections'
headers and bodies. -/
def createPatchForNewFile (path : List Char) (sel : List (Nat × Bool))
    (diff : Diff) : List Char :=
  diff.sections.foldl (fun input s => input ++ newFileSectionPatch path sel s) []

/-- The complete patch text for one section on the modified-file path
(source line 452); each such text is fed to one independent apply call. -/
def modSectionPatch (path : List Char) (sel : List (Nat × Bool))
    (s : DiffSection) : List Char :=
  let bc := applyPatchSectionMod sel s
  "--- a/".data ++ path ++ '\n' :: ("+++ b/".data ++ path ++ '\n' ::
    ("@@ -".data ++ renderNum s.range.oldStartLine ++ ',' :: renderNum s.range.oldEndLine ++
     " +".data ++ renderNum s.range.newStartLine ++ ',' :: renderNum (modNewLineCount sel s) ++
     " @@ ".data ++ additionalTextOf (headerLineOf s) ++ ['\n'])) ++ bc.1

/-- The per-section patch inputs of applyPatchToIndex for a modified file. -/
def applyPatchInputsMod (path : List Char) (sel : List (Nat × Bool))
    (diff : Diff) : List (List Char) :=
  diff.sections.map (modSectionPatch path sel)

/-- One line matched against the hunk-header regex of getDiff (source line
523).  Returns the four captured digit groups; the two count groups are
none when the header elides them.  The optional groups accept one or more
commas followed by digits, exactly as the regex does. -/
def matchHunkHeader (l : List Char) : Option (List Char × Option (List Char) × List Char × Option (List Char)) :=
  match l with
  | '@' :: '@' :: ' ' :: '-' :: rest =>
    let p1 := rest.span Char.isDigit
    if p1.1.isEmpty then none
    else
      let ocr :=
        match p1.2 with
        | ',' :: _ =>
          let pc := p1.2.span (fun c => c == ',')
          let pd := pc.2.span Char.isDigit
          if pd.1.isEmpty then (none, p1.2) else (some pd.1, pd.2)
        | _ => ((none : Option (List Char)), p1.2)
      match ocr.2 with
      | ' ' :: '+' :: r3 =>
        let p3 := r3.span Char.isDigit
        if p3.1.isEmpty then none
        else
          let ncr :=
            match p3.2 with
            | ',' :: _ =>
              let pc := p3.2.span (fun c => c == ',')
              let pd := pc.2.span Char.isDigit
              if pd.1.isEmpty then (none, p3.2) else (some pd.1, pd.2)
            | _ => ((none : Option (List Char)), p3.2)
          match ncr.2 with
          | ' ' :: '@' :: '@' :: _ => some (p1.1, ocr.1, p3.1, ncr.1)
          | _ => none
      | _ => none
  | _ => none

/-- The multiline regex exec of getDiff: the first line of the remaining
buffer that matches the hunk-header pattern, anywhere in the buffer. -/
def execHunkRegex (buf : List Char) : Option (List Char × Option (List Char) × List Char × Option (List Char)) :=
  (jsSplit '\n' buf).findSome? matchHunkHeader

/-- Source lines 547-563: the four range numbers for the section at the
head of the buffer.  All four fields are the sentinel -1 when the regex
matches nowhere; parseInt of an absent count group yields NaN (none). -/
def parseRange (buf : List Char) : DiffSectionRange :=
  match execHunkRegex buf with
  | none => ⟨some (-1), some (-1), some (-1), some (-1)⟩
  | some (os, oc, ns, nc) =>
    ⟨some (digitsToNat os : Int), oc.map (fun d => (digitsToNat d : Int)),
     some (digitsToNat ns : Int), nc.map (fun d => (digitsToNat d : Int))⟩

/-- The two-at-signs marker that starts each diff section. -/
def hunkMarker : List Char := ['@', '@']

/-- Source lines 566-567: the end of the current header line, then the
next marker searched from the following position (from position zero when
the buffer holds no newline). -/
def nextMarker (buf : List Char) : Option Nat :=
  match jsIndexOfChar buf '\n' 0 with
  | none => jsIndexOfPat buf hunkMarker 0
  | some p => jsIndexOfPat buf hunkMarker (p + 1)

/-- The while loop of getDiff (source lines 539-608), with explicit fuel
standing for the loop's iteration budget.  At entry idx is the position of
the current marker in buffer; the buffer is trimmed to the marker, the
range is parsed, and the section body runs to the next marker or to the
end of the text.  The first section starts at absolute position 0; later
sections start at pointer + 1 when another marker follows and at pointer
for the final section. -/
def diffLoop : Nat → List Char → Nat → Nat → List DiffSection → List DiffSection
  | 0, _, _, _, acc => acc
  | fuel + 1, buffer, idx, pointer, acc =>
    let buf := buffer.drop idx
    let range := parseRange buf
    match nextMarker buf with
    | some j =>
      let diffLines := jsSplit '\n' (buf.take j)
      let start := if acc.isEmpty then 0 else pointer + 1
      diffLoop fuel buf j (pointer + diffLines.length)
        (acc ++ [DiffSection.make range diffLines start (start + diffLines.length)])
    | none =>
      let diffLines := jsSplit '\n' buf
      let start := if acc.isEmpty then 0 else pointer
      acc ++ [DiffSection.make range diffLines start (start + diffLines.length)]

/-- Parsing of the raw diff text into a Diff (the loop of getDiff): no
marker at all yields an empty Diff. -/
def getDiffFromText (diffText : List Char) : Diff :=
  match jsIndexOfPat diffText hunkMarker 0 with
  | none => ⟨[]⟩
  | some idx => ⟨diffLoop (diffText.length + 1) diffText idx 0 []⟩

/-- Source lines 521-526: the command output is split on the null byte and
the diff text is its last piece. -/
def getDiffModel (result : List Char) : Diff :=
  getDiffFromText ((jsSplit '\x00' result).getLastD [])

/-- Positions paired with lines: position i + 1 for the line at zero-based
offset i, the keys the reconstruction loops look up in the selection map. -/
def withPositions : Nat → List DiffLine → List (Nat × DiffLine)
  | _, [] => []
  | i, l :: rest => (i + 1, l) :: withPositions (i + 1) rest

/-- Number of body lines of the given type whose position is explicitly
mapped to false in the selection. -/
def deselectedCount (sel : List (Nat × Bool)) (t : DiffLineType)
    (body : List DiffLine) : Nat :=
  (withPositions 0 body).countP (fun p => p.2.type == t && (sel.lookup p.1 == some false))

/-- Number of non-context body lines whose position is explicitly mapped
to true in the selection. -/
def selectedChangeCount (sel : List (Nat × Bool)) (body : List DiffLine) : Nat :=
  (withPositions 0 body).countP
    (fun p => !(p.2.type == DiffLineType.Context) && (sel.lookup p.1 == some true))

/-- The list l contains the segment seg as a contiguous run. -/
def ContainsSeg (seg l : List Char) : Prop :=
  ∃ pre post, l = pre ++ seg ++ post

/-- A concrete one-section diff used to exercise the reconstruction paths:
one context line and one addition, declared counts 1 old and 2 new. -/
def c1text : List Char := "@@ -1,1 +1,2 @@ t\n ctx\n+new\n".data

/-- A concrete one-section diff with one context line and one deletion,
declared counts 2 old and 1 new. -/
def c2text : List Char := "@@ -1,2 +1,1 @@ t\n ctx\n-gone\n".data

/-- A concrete new-file style diff: two additions, declared new count 2. -/
def cwNewText : List Char := "@@ -0,0 +1,2 @@\n+a\n+b\n".data

/-- A concrete parsed diff holding an addition line. -/
def c6diff : Diff := getDiffModel "@@ -1,1 +1,2 @@\n a\n+b\n".data

/-- A concrete diff whose hunk header elides both comma-count forms. -/
def c7text : List Char := "@@ -3 +4 @@ ctx\n line\n".data

/-- A concrete diff whose first hunk header is malformed while a later
section carries a well-formed header. -/
def c8text : List Char := "@@ bad\n x\n@@ -1,2 +3,4 @@ t\n y\n".data

/-- A concrete diff whose trailing sections are malformed and followed by
no well-formed header. -/
def c8tail : List Char := "@@ -1,2 +3,4 @@ t\n y\n@@ bad1\n x\n@@ bad2\n z\n".data

/-- A concrete three-section diff. -/
def c9text : List Char :=
  "@@ -1,1 +1,1 @@ a\n x\n@@ -2,1 +2,1 @@ b\n y\n@@ -3,1 +3,1 @@ c\n z\n".data

/-- A placeholder section used only as the default of headD. -/
def defaultSection : DiffSection :=
  DiffSection.make ⟨some (-1), some (-1), some (-1), some (-1)⟩ [] 0 0

/-- The single section parsed from c1text. -/
def c1section : DiffSection := (getDiffModel c1text).sections.headD defaultSection

/-- The single section parsed from c2text. -/
def c2section : DiffSection := (getDiffModel c2text).sections.headD defaultSection

/-- The single section parsed from cwNewText. -/
def cwNewSection : DiffSection := (getDiffModel cwNewText).sections.headD defaultSection

/-- Ordering of sections by their absolute start index. -/
def startLt (a b : DiffSection) : Prop :=
  a.startDiffSection < b.startDiffSection

/-- A concrete buffer whose sections are all malformed: no line of it
matches the hunk-header pattern. -/
def c8marker : List Char := "@@ bad1\n x\n@@ bad2\n z\n".data

/-- A sample context line as produced by the DiffSection constructor. -/
def sampleContextLine : DiffLine := ⟨" a".data, DiffLineType.Context, some 1, some 1, false⟩

/-- A sample addition line as produced by the DiffSection constructor. -/
def sampleAddLine : DiffLine := ⟨"+b".data, DiffLineType.Add, none, some 2, false⟩

/-- A sample deletion line as produced by the DiffSection constructor. -/
def sampleDeleteLine : DiffLine := ⟨"-gone".data, DiffLineType.Delete, some 2, none, false⟩

/-- Each nonempty list produced by jsSplit stays nonempty as a list of
pieces: splitting always yields at least one piece. -/
theorem jsSplit_ne_nil (c : Char) (l : List Char) : jsSplit c l ≠ [] := by
  induction l with
  | nil => simp [jsSplit]
  | cons x xs ih =>
    simp only [jsSplit]
    split
    · simp
    · rcases h : jsSplit c xs with _ | ⟨y, ys⟩
      · exact absurd h ih
      · simp [h]

/-- Splitting a list that contains the separator yields at least two pieces. -/
theorem two_le_jsSplit_length {c : Char} {l : List Char} (h : c ∈ l) :
    2 ≤ (jsSplit c l).length := by
  induction l with
  | nil => cases h
  | cons x xs ih =>
    simp only [jsSplit]
    by_cases hx : x = c
    · rw [if_pos hx]
      have h1 : jsSplit c xs ≠ [] := jsSplit_ne_nil c xs
      have h2 : 0 < (jsSplit c xs).length := List.length_pos.mpr h1
      simp only [List.length_cons]
      omega
    · have hmem : c ∈ xs := by
        rcases List.mem_cons.mp h with h1 | h1
        · exact absurd h1.symm hx
        · exact h1
      have h2 := ih hmem
      rw [if_neg hx]
      rcases hsp : jsSplit c xs with _ | ⟨y, ys⟩
      · exact absurd hsp (jsSplit_ne_nil c xs)
      · rw [hsp] at h2
        simpa using h2

/-- A one-character pattern at the head of a list pins the head. -/
theorem leadsWith_single {c : Char} {l : List Char}
    (h : leadsWith [c] l = true) : ∃ t, l = c :: t := by
  cases l with
  | nil => simp [leadsWith] at h
  | cons x xs =>
    refine ⟨xs, ?_⟩
    simp only [leadsWith, Bool.and_eq_true, beq_iff_eq] at h
    rw [h.1]

/-- What a successful indexOf guarantees: the position is at or after the
start and the pattern occurs there. -/
theorem jsIndexOfPat_some {s pat : List Char} {start j : Nat}
    (h : jsIndexOfPat s pat start = some j) :
    start ≤ j ∧ leadsWith pat (s.drop j) = true := by
  unfold jsIndexOfPat at h
  have := List.find?_some h
  simpa using this

/-- indexOf from position zero finds an occurrence at the very head. -/
theorem jsIndexOfPat_zero {s pat : List Char} (h : leadsWith pat s = true) :
    jsIndexOfPat s pat 0 = some 0 := by
  unfold jsIndexOfPat
  rw [List.range_succ_eq_map]
  rw [List.find?_cons_of_pos]
  simpa using h

/-- Unfolding lemma for withPositions. -/
theorem withPositions_cons (i : Nat) (l : DiffLine) (rest : List DiffLine) :
    withPositions i (l :: rest) = (i + 1, l) :: withPositions (i + 1) rest := rfl

/-- The new-file loop distributes over list append: the second part is
processed with the index shifted by the length of the first. -/
theorem patchBodyNewGo_append (sel : List (Nat × Bool)) (A B : List DiffLine) :
    ∀ i, patchBodyNewGo sel i (A ++ B) =
      ((patchBodyNewGo sel i A).1 ++ (patchBodyNewGo sel (i + A.length) B).1,
       (patchBodyNewGo sel i A).2 + (patchBodyNewGo sel (i + A.length) B).2) := by
  induction A with
  | nil => intro i; simp [patchBodyNewGo]
  | cons l rest ih =>
    intro i
    have harith : i + 1 + rest.length = i + (rest.length + 1) := by omega
    simp only [List.cons_append, patchBodyNewGo, List.append_eq, ih (i + 1), harith,
      List.length_cons]
    split
    · simp [List.append_assoc]
    · rcases sel.lookup (i + 1) with _ | b
      · simp
      · cases b
        · simp
        · simp [List.append_assoc]
          omega

/-- The modified-file loop distributes over list append in the same way. -/
theorem patchBodyModGo_append (sel : List (Nat × Bool)) (A B : List DiffLine) :
    ∀ i, patchBodyModGo sel i (A ++ B) =
      ((patchBodyModGo sel i A).1 ++ (patchBodyModGo sel (i + A.length) B).1,
       (patchBodyModGo sel i A).2 + (patchBodyModGo sel (i + A.length) B).2) := by
  induction A with
  | nil => intro i; simp [patchBodyModGo]
  | cons l rest ih =>
    intro i
    have harith : i + 1 + rest.length = i + (rest.length + 1) := by omega
    by_cases hc : l.type = DiffLineType.Context
    · simp only [List.cons_append, patchBodyModGo, List.append_eq, ih (i + 1), harith,
        List.length_cons, if_pos hc]
      simp [Prod.mk.injEq, List.append_assoc]
    · rcases hsel : sel.lookup (i + 1) with _ | b
      · simp only [List.cons_append, patchBodyModGo, List.append_eq, ih (i + 1), harith,
          List.length_cons, if_neg hc, hsel]
      · cases b
        · by_cases hd : l.type = DiffLineType.Delete
          · simp only [List.cons_append, patchBodyModGo, List.append_eq, ih (i + 1), harith,
              List.length_cons, if_neg hc, hsel, if_pos hd]
            simp [Prod.mk.injEq, List.append_assoc]
            omega
          · simp only [List.cons_append, patchBodyModGo, List.append_eq, ih (i + 1), harith,
              List.length_cons, if_neg hc, hsel, if_neg hd]
            simp [Prod.mk.injEq]
            omega
        · simp only [List.cons_append, patchBodyModGo, List.append_eq, ih (i + 1), harith,
            List.length_cons, if_neg hc, hsel]
          simp [Prod.mk.injEq, List.append_assoc]

/-- The counter of the new-file loop counts exactly the non-context lines
whose position is mapped to true. -/
theorem patchBodyNewGo_count (sel : List (Nat × Bool)) :
    ∀ (body : List DiffLine) (i : Nat),
      (patchBodyNewGo sel i body).2 =
        (withPositions i body).countP
          (fun p => !(p.2.type == DiffLineType.Context) && (sel.lookup p.1 == some true)) := by
  intro body
  induction body with
  | nil => intro i; simp [patchBodyNewGo, withPositions]
  | cons l rest ih =>
    intro i
    simp only [patchBodyNewGo, withPositions_cons, List.countP_cons]
    by_cases hc : l.type = DiffLineType.Context
    · simp [hc, ih (i + 1)]
    · rw [if_neg hc]
      rcases hl : sel.lookup (i + 1) with _ | b
      · simp [hl, hc, ih (i + 1)]
      · cases b
        · simp [hl, hc, ih (i + 1)]
        · simp [hl, hc, ih (i + 1)]

/-- The skip counter of the modified-file loop: over a body free of
hunk-header lines it equals deselected additions minus deselected
deletions (deselected meaning explicitly mapped to false). -/
theorem patchBodyModGo_skipped (sel : List (Nat × Bool)) :
    ∀ (body : List DiffLine) (i : Nat),
      (∀ l ∈ body, l.type ≠ DiffLineType.Hunk) →
      (patchBodyModGo sel i body).2 =
        ((withPositions i body).countP
          (fun p => p.2.type == DiffLineType.Add && (sel.lookup p.1 == some false)) : Int) -
        ((withPositions i body).countP
          (fun p => p.2.type == DiffLineType.Delete && (sel.lookup p.1 == some false)) : Int) := by
  intro body
  induction body with
  | nil => intro i _; simp [patchBodyModGo, withPositions]
  | cons l rest ih =>
    intro i hnoHunk
    have hrest : ∀ x ∈ rest, x.type ≠ DiffLineType.Hunk := by
      intro x hx; exact hnoHunk x (List.mem_cons_of_mem l hx)
    have hl := hnoHunk l (List.mem_cons_self l rest)
    have ihr := ih (i + 1) hrest
    simp only [patchBodyModGo, withPositions_cons, List.countP_cons]
    cases hty : l.type with
    | Context => simp [hty, ihr]
    | Hunk => exact absurd hty hl
    | Add =>
      rcases hsel : sel.lookup (i + 1) with _ | b
      · simp [hty, hsel, ihr]
      · cases b
        · simp [hty, hsel, ihr]
          omega
        · simp [hty, hsel, ihr]
    | Delete =>
      rcases hsel : sel.lookup (i + 1) with _ | b
      · simp [hty, hsel, ihr]
      · cases b
        · simp [hty, hsel, ihr]
          omega
        · simp [hty, hsel, ihr]

/-- Under a selection that explicitly maps every position of the body to
true, and a body of change lines only, the new-file loop counts every line
and the modified-file loop skips nothing. -/
theorem patchBodyGo_fullSelection (sel : List (Nat × Bool)) :
    ∀ (body : List DiffLine) (i : Nat),
      (∀ p ∈ withPositions i body,
        p.2.type ≠ DiffLineType.Context ∧ sel.lookup p.1 = some true) →
      (patchBodyNewGo sel i body).2 = body.length ∧
      (patchBodyModGo sel i body).2 = 0 := by
  intro body
  induction body with
  | nil => intro i _; simp [patchBodyNewGo, patchBodyModGo]
  | cons l rest ih =>
    intro i hfull
    have hl := hfull (i + 1, l) (by rw [withPositions_cons]; exact List.mem_cons_self _ _)
    have hrest : ∀ p ∈ withPositions (i + 1) rest,
        p.2.type ≠ DiffLineType.Context ∧ sel.lookup p.1 = some true := by
      intro p hp
      exact hfull p (by rw [withPositions_cons]; exact List.mem_cons_of_mem _ hp)
    have ihr := ih (i + 1) hrest
    simp only [patchBodyNewGo, patchBodyModGo, if_neg hl.1, hl.2, List.length_cons]
    exact ⟨by omega, by omega⟩

/-- One step of the modified-file loop at a deletion line explicitly
mapped to false: the line is re-emitted with its leading character
replaced by a space, and linesSkipped decreases by one. -/
theorem patchBodyModGo_deselected_delete (sel : List (Nat × Bool)) (i : Nat)
    (l : DiffLine) (B : List DiffLine) (hdel : l.type = DiffLineType.Delete)
    (hsel : sel.lookup (i + 1) = some false) :
    patchBodyModGo sel i (l :: B) =
      ((' ' :: l.text.drop 1) ++ '\n' :: (patchBodyModGo sel (i + 1) B).1,
       (patchBodyModGo sel (i + 1) B).2 - 1) := by
  have hnc : l.type ≠ DiffLineType.Context := by rw [hdel]; intro hx; cases hx
  simp [patchBodyModGo, if_neg hnc, hsel, hdel]

/-- C1, counterexample.  The claim reads: with includeAllByDefault true
and an empty overrides map every change line is emitted and the
synthesized new count equals the declared new count.  On the parsed
section of c1text (declared new count 2) the new-file path with an empty
selection map emits no change line and synthesizes count 0, and the
modified-file path even under an explicitly full selection synthesizes
count 1 (the declared old count), not 2: change lines absent from the map
are dropped, the include-all default is never consulted. -/
theorem c1_round_trip_counterexample :
    (getDiffModel c1text).sections.map
        (fun s => some ((createPatchForNewFileSection [] s).2 : Int)) = [some 0] ∧
    (getDiffModel c1text).sections.map (fun s => modNewLineCount [(2, true)] s) = [some 1] ∧
    (getDiffModel c1text).sections.map (fun s => s.range.newEndLine) = [some 2] ∧
    (some (0 : Int) ≠ some (2 : Int)) ∧ (some (1 : Int) ≠ some (2 : Int)) :=
  ⟨by decide, by decide, by decide, by decide, by decide⟩

/-- C1: round trip of full selection, amended.  Only an overrides map that
explicitly maps every position of the section body to true reproduces the
full section: under such a selection over a body of change lines whose
length matches the declared new count, the new-file path synthesizes
exactly the declared new count; the modified-file path skips nothing and
synthesizes the declared old count. -/
theorem c1_round_trip_amended (sel : List (Nat × Bool)) (s : DiffSection)
    (hfull : ∀ p ∈ withPositions 0 (sliceBody s.lines),
      p.2.type ≠ DiffLineType.Context ∧ sel.lookup p.1 = some true)
    (hdecl : s.range.newEndLine = some ((sliceBody s.lines).length : Int)) :
    some ((createPatchForNewFileSection sel s).2 : Int) = s.range.newEndLine ∧
    modNewLineCount sel s = s.range.oldEndLine := by
  have h := patchBodyGo_fullSelection sel (sliceBody s.lines) 0 hfull
  constructor
  · rw [hdecl]
    unfold createPatchForNewFileSection
    rw [h.1]
  · unfold modNewLineCount applyPatchSectionMod
    rw [h.2]
    unfold jsSub
    cases s.range.oldEndLine <;> simp

/-- C1, witness: the amended theorem applied to the parsed section of
cwNewText under the explicit full selection. -/
theorem c1_round_trip_witness :
    (∀ p ∈ withPositions 0 (sliceBody cwNewSection.lines),
      p.2.type ≠ DiffLineType.Context ∧
        ([(1, true), (2, true)] : List (Nat × Bool)).lookup p.1 = some true) ∧
    cwNewSection.range.newEndLine = some (((sliceBody cwNewSection.lines).length : Nat) : Int) ∧
    (some ((createPatchForNewFileSection [(1, true), (2, true)] cwNewSection).2 : Int) =
        cwNewSection.range.newEndLine ∧
      modNewLineCount [(1, true), (2, true)] cwNewSection = cwNewSection.range.oldEndLine) :=
  ⟨by decide, by decide, c1_round_trip_amended [(1, true), (2, true)] cwNewSection
    (by decide) (by decide)⟩

/-- C2, counterexample.  The claim reads: skipped equals deselected
deletions minus deselected additions.  On the parsed section of c2text
(old count 2) with the deletion at position 2 deselected, the code
computes linesSkipped of minus one, hence a synthesized new count of 3,
while the claim's formula predicts 1. -/
theorem c2_count_conservation_counterexample :
    (getDiffModel c2text).sections.map (fun s => modNewLineCount [(2, false)] s) = [some 3] ∧
    (getDiffModel c2text).sections.map (fun s =>
      jsSub s.range.oldEndLine
        ((deselectedCount [(2, false)] DiffLineType.Delete (sliceBody s.lines) : Int) -
         (deselectedCount [(2, false)] DiffLineType.Add (sliceBody s.lines) : Int))) = [some 1] ∧
    (some (3 : Int) ≠ some (1 : Int)) :=
  ⟨by decide, by decide, by decide⟩

/-- C2: count conservation, amended.  For every modified-file section
whose body holds no hunk-header line (as parsed bodies do) and every
selection map, linesSkipped equals deselected additions minus deselected
deletions, with deselected meaning explicitly mapped to false, and the
synthesized new count is the declared old count minus that quantity; in
particular skipped is 0 when every change line is explicitly selected. -/
theorem c2_count_conservation_amended (sel : List (Nat × Bool)) (s : DiffSection)
    (hbody : ∀ l ∈ sliceBody s.lines, l.type ≠ DiffLineType.Hunk) :
    (applyPatchSectionMod sel s).2 =
      (deselectedCount sel DiffLineType.Add (sliceBody s.lines) : Int) -
      (deselectedCount sel DiffLineType.Delete (sliceBody s.lines) : Int) ∧
    modNewLineCount sel s =
      jsSub s.range.oldEndLine
        ((deselectedCount sel DiffLineType.Add (sliceBody s.lines) : Int) -
         (deselectedCount sel DiffLineType.Delete (sliceBody s.lines) : Int)) := by
  have h1 : (applyPatchSectionMod sel s).2 =
      (deselectedCount sel DiffLineType.Add (sliceBody s.lines) : Int) -
      (deselectedCount sel DiffLineType.Delete (sliceBody s.lines) : Int) :=
    patchBodyModGo_skipped sel (sliceBody s.lines) 0 hbody
  exact ⟨h1, by unfold modNewLineCount; rw [h1]⟩

/-- C2, witness: the amended theorem applied to the parsed section of
c2text with its deletion deselected. -/
theorem c2_count_conservation_witness :
    (∀ l ∈ sliceBody c2section.lines, l.type ≠ DiffLineType.Hunk) ∧
    ((applyPatchSectionMod [(2, false)] c2section).2 =
      (deselectedCount [(2, false)] DiffLineType.Add (sliceBody c2section.lines) : Int) -
      (deselectedCount [(2, false)] DiffLineType.Delete (sliceBody c2section.lines) : Int) ∧
    modNewLineCount [(2, false)] c2section =
      jsSub c2section.range.oldEndLine
        ((deselectedCount [(2, false)] DiffLineType.Add (sliceBody c2section.lines) : Int) -
         (deselectedCount [(2, false)] DiffLineType.Delete (sliceBody c2section.lines) : Int))) :=
  ⟨by decide, c2_count_conservation_amended [(2, false)] c2section (by decide)⟩

/-- C3, counterexample.  The claim reads: every deselected Deletion line
is re-emitted as a context line and never dropped.  With the selection
model resolving position 1 to false through its default (include-all
false, empty overrides), the code passes only the overrides map to the
loop, finds the position absent, and drops the deletion line entirely:
the emitted body is empty and contains no re-contextified line. -/
theorem c3_recontextified_counterexample :
    (DiffSelection.mk false []).get 1 = false ∧
    sampleDeleteLine.type = DiffLineType.Delete ∧
    (patchBodyModGo (DiffSelection.mk false []).selectedLines 0 [sampleDeleteLine]).1 = [] ∧
    ¬ ContainsSeg (' ' :: sampleDeleteLine.text.drop 1 ++ ['\n'])
        (patchBodyModGo (DiffSelection.mk false []).selectedLines 0 [sampleDeleteLine]).1 := by
  refine ⟨by decide, by decide, by decide, ?_⟩
  rw [show (patchBodyModGo (DiffSelection.mk false []).selectedLines 0 [sampleDeleteLine]).1 = []
    from by decide]
  rintro ⟨pre, post, hx⟩
  have hlen := congrArg List.length hx
  simp [sampleDeleteLine] at hlen
  omega

/-- C3: re-contextified deletions, amended.  For a Deletion line whose
position is explicitly mapped to false in the overrides, the emitted
patch body contains, at that line's place, a line made of one space
followed by the deletion text without its leading character; Deletion
lines absent from the map are dropped instead. -/
theorem c3_recontextified_amended (sel : List (Nat × Bool)) (A B : List DiffLine)
    (l : DiffLine) (hdel : l.type = DiffLineType.Delete)
    (hsel : sel.lookup (A.length + 1) = some false) :
    ContainsSeg (' ' :: l.text.drop 1 ++ ['\n'])
      (patchBodyModGo sel 0 (A ++ l :: B)).1 := by
  have hsplit := patchBodyModGo_append sel A (l :: B) 0
  have hstep := patchBodyModGo_deselected_delete sel A.length l B hdel hsel
  refine ⟨(patchBodyModGo sel 0 A).1, (patchBodyModGo sel (A.length + 1) B).1, ?_⟩
  rw [hsplit]
  simp only [Nat.zero_add, hstep]
  simp [List.append_assoc]

/-- C3, witness: the amended theorem applied to a body of one context
line followed by one deletion line deselected at position 2. -/
theorem c3_recontextified_witness :
    sampleDeleteLine.type = DiffLineType.Delete ∧
    ([(2, false)] : List (Nat × Bool)).lookup (([sampleContextLine] : List DiffLine).length + 1) =
      some false ∧
    ContainsSeg (' ' :: sampleDeleteLine.text.drop 1 ++ ['\n'])
      (patchBodyModGo [(2, false)] 0 ([sampleContextLine] ++ sampleDeleteLine :: [])).1 :=
  ⟨by decide, by decide,
    c3_recontextified_amended [(2, false)] [sampleContextLine] [] sampleDeleteLine
      (by decide) (by decide)⟩

/-- C4, counterexample.  The claim reads: the overrides are keyed by the
line's 1-based position among change lines only, context excluded.  In a
body of one context line followed by one addition, the addition is the
first change line, yet an override keyed 1 does not control it (the
addition is dropped) while an override keyed 2, its position counting the
context line, does. -/
theorem c4_selection_addressing_counterexample :
    (patchBodyNewGo [(1, true)] 0 [sampleContextLine, sampleAddLine]).1 = " a\n".data ∧
    (patchBodyNewGo [(1, true)] 0 [sampleContextLine, sampleAddLine]).2 = 0 ∧
    (patchBodyNewGo [(2, true)] 0 [sampleContextLine, sampleAddLine]).1 = " a\n+b\n".data ∧
    (patchBodyNewGo [(2, true)] 0 [sampleContextLine, sampleAddLine]).2 = 1 := by
  decide

/-- C4: selection addressing, amended.  Both reconstruction loops decide
the fate of the change line at zero-based body offset length-of-A by the
key length-of-A plus one: the 1-based position within the sliced body,
counting context lines as well. -/
theorem c4_selection_addressing_amended (sel : List (Nat × Bool)) (A B : List DiffLine)
    (l : DiffLine) (h : l.type ≠ DiffLineType.Context) :
    (patchBodyNewGo sel 0 (A ++ l :: B)).1 =
      (patchBodyNewGo sel 0 A).1 ++
      (match sel.lookup (A.length + 1) with
       | some true => l.text ++ ['\n']
       | _ => []) ++ (patchBodyNewGo sel (A.length + 1) B).1 ∧
    (patchBodyModGo sel 0 (A ++ l :: B)).1 =
      (patchBodyModGo sel 0 A).1 ++
      (match sel.lookup (A.length + 1) with
       | some true => l.text ++ ['\n']
       | some false =>
         if l.type = DiffLineType.Delete then (' ' :: l.text.drop 1) ++ ['\n'] else []
       | none => []) ++ (patchBodyModGo sel (A.length + 1) B).1 := by
  have hn := patchBodyNewGo_append sel A (l :: B) 0
  have hm := patchBodyModGo_append sel A (l :: B) 0
  constructor
  · rw [hn]
    simp only [Nat.zero_add]
    rcases hsel : sel.lookup (A.length + 1) with _ | b
    · simp [patchBodyNewGo, if_neg h, hsel]
    · cases b
      · simp [patchBodyNewGo, if_neg h, hsel]
      · simp [patchBodyNewGo, if_neg h, hsel, List.append_assoc]
  · rw [hm]
    simp only [Nat.zero_add]
    rcases hsel : sel.lookup (A.length + 1) with _ | b
    · simp [patchBodyModGo, if_neg h, hsel]
    · cases b
      · by_cases hd : l.type = DiffLineType.Delete
        · simp [patchBodyModGo, if_neg h, hsel, if_pos hd, List.append_assoc]
        · simp [patchBodyModGo, if_neg h, hsel, if_neg hd]
      · simp [patchBodyModGo, if_neg h, hsel, List.append_assoc]

/-- C4, witness: the amended theorem applied to a context line followed
by an addition line, whose lookup key is 2. -/
theorem c4_selection_addressing_witness :
    sampleAddLine.type ≠ DiffLineType.Context ∧
    ((patchBodyNewGo [(2, true)] 0 ([sampleContextLine] ++ sampleAddLine :: [])).1 =
      (patchBodyNewGo [(2, true)] 0 [sampleContextLine]).1 ++
      (match ([(2, true)] : List (Nat × Bool)).lookup
          (([sampleContextLine] : List DiffLine).length + 1) with
       | some true => sampleAddLine.text ++ ['\n']
       | _ => []) ++
      (patchBodyNewGo [(2, true)] (([sampleContextLine] : List DiffLine).length + 1) []).1 ∧
    (patchBodyModGo [(2, true)] 0 ([sampleContextLine] ++ sampleAddLine :: [])).1 =
      (patchBodyModGo [(2, true)] 0 [sampleContextLine]).1 ++
      (match ([(2, true)] : List (Nat × Bool)).lookup
          (([sampleContextLine] : List DiffLine).length + 1) with
       | some true => sampleAddLine.text ++ ['\n']
       | some false =>
         if sampleAddLine.type = DiffLineType.Delete then
           (' ' :: sampleAddLine.text.drop 1) ++ ['\n']
         else []
       | none => []) ++
      (patchBodyModGo [(2, true)] (([sampleContextLine] : List DiffLine).length + 1) []).1) :=
  ⟨by decide,
    c4_selection_addressing_amended [(2, true)] [sampleContextLine] [] sampleAddLine (by decide)⟩

/-- C5, counterexample.  The claim reads: the synthesized count equals
the total number of emitted body lines, context included.  A body of one
context line with an empty selection emits one line but the loop counts
zero. -/
theorem c5_newfile_count_counterexample :
    (patchBodyNewGo [] 0 [sampleContextLine]).1 = " a\n".data ∧
    (patchBodyNewGo [] 0 [sampleContextLine]).1.count '\n' = 1 ∧
    (patchBodyNewGo [] 0 [sampleContextLine]).2 ≠
      (patchBodyNewGo [] 0 [sampleContextLine]).1.count '\n' := by
  decide

/-- C5: new-file emitted-count recomputation, amended.  The new-file
path's synthesized count equals the number of non-context body lines
whose position is explicitly mapped to true — the selected change lines
actually emitted; context lines, though always copied, are not counted,
and the declared header count is never consulted. -/
theorem c5_newfile_count_amended (sel : List (Nat × Bool)) (s : DiffSection) :
    (createPatchForNewFileSection sel s).2 = selectedChangeCount sel (sliceBody s.lines) :=
  patchBodyNewGo_count sel (sliceBody s.lines) 0

/-- C6, counterexample.  The claim reads: no operation mutates a DiffLine
or any other part of a parsed Diff.  Diff.setAllLines applied to a parsed
diff holding an addition line changes that line's selected flag, so the
resulting Diff differs from the original. -/
theorem c6_diff_immutability_counterexample : setAllLines c6diff true ≠ c6diff := by
  decide

/-- C6: diff immutability, amended.  DiffLine does store a selected flag
(initialised false) and Diff.setAllLines mutates exactly that flag on
every Addition and Deletion line; section count, ranges, section indices,
and every line's text, type and line numbers are untouched, and lines of
other types keep their selected flag. -/
theorem c6_diff_immutability_amended (d : Diff) (b : Bool) :
    (setAllLines d b).sections.length = d.sections.length ∧
    (∀ i : Nat, ((setAllLines d b).sections[i]?).map
        (fun s => (s.range, s.startDiffSection, s.endDiffSection)) =
      (d.sections[i]?).map (fun s => (s.range, s.startDiffSection, s.endDiffSection))) ∧
    (∀ i j : Nat, (((setAllLines d b).sections[i]?).bind (fun s => s.lines[j]?)).map
        (fun l => (l.text, l.type, l.oldLineNumber, l.newLineNumber)) =
      ((d.sections[i]?).bind (fun s => s.lines[j]?)).map
        (fun l => (l.text, l.type, l.oldLineNumber, l.newLineNumber))) ∧
    (∀ i j : Nat, (((setAllLines d b).sections[i]?).bind (fun s => s.lines[j]?)).map
        (fun l => l.selected) =
      ((d.sections[i]?).bind (fun s => s.lines[j]?)).map
        (fun l => if l.type = DiffLineType.Add ∨ l.type = DiffLineType.Delete then b
          else l.selected)) := by
  refine ⟨by simp [setAllLines], ?_, ?_, ?_⟩
  · intro i
    simp only [setAllLines, List.getElem?_map]
    cases d.sections[i]? <;> simp
  · intro i j
    simp only [setAllLines, List.getElem?_map]
    cases hs : d.sections[i]? with
    | none => rfl
    | some s =>
      cases hl : s.lines[j]? with
      | none => simp [List.getElem?_map, hl]
      | some l =>
        by_cases ht : l.type = DiffLineType.Add ∨ l.type = DiffLineType.Delete
        · simp [List.getElem?_map, hl, ht]
        · simp [List.getElem?_map, hl, ht]
  · intro i j
    simp only [setAllLines, List.getElem?_map]
    cases hs : d.sections[i]? with
    | none => rfl
    | some s =>
      cases hl : s.lines[j]? with
      | none => simp [List.getElem?_map, hl]
      | some l =>
        by_cases ht : l.type = DiffLineType.Add ∨ l.type = DiffLineType.Delete
        · simp [List.getElem?_map, hl, ht]
        · simp [List.getElem?_map, hl, ht]

/-- C7: elided hunk counts.  The claim (and unified-diff convention) says
a header that omits the comma-count forms parses with both counts 1; the
code instead hands the absent regex groups to parseInt, producing NaN
(modelled none) in both count fields, which then poisons the synthesized
headers.  This theorem evaluates the code on such a header. -/
theorem c7_elided_counts_code_behavior :
    (getDiffModel c7text).sections.map
        (fun s => (s.range.oldStartLine, s.range.oldEndLine, s.range.newStartLine,
          s.range.newEndLine)) = [(some 3, none, some 4, none)] ∧
    matchHunkHeader "@@ -3 +4 @@ ctx".data = some ("3".data, none, "4".data, none) ∧
    ((none : Option Int) ≠ some 1) := by
  refine ⟨by decide, by decide, by decide⟩

/-- C10: status mapping totality.  Any status string whose trimmed form
is not one of the fourteen recognised codes maps to Modified. -/
theorem c10_status_default_total (s : List Char) (h : jsTrim s ∉ statusCodes) :
    mapStatus s = FileStatus.Modified := by
  simp only [statusCodes, List.mem_cons, List.not_mem_nil, or_false, not_or] at h
  obtain ⟨h1, h2, h3, h4, h5, h6, h7, h8, h9, h10, h11, h12, h13, h14⟩ := h
  unfold mapStatus
  simp only [if_neg h1, if_neg h2, if_neg h3, if_neg h4, if_neg h5, if_neg h6, if_neg h7,
    if_neg h8, if_neg h9, if_neg h10, if_neg h11, if_neg h12, if_neg h13, if_neg h14]

/-- C10, witness: a concrete unrecognised status string maps to Modified. -/
theorem c10_status_default_witness :
    jsTrim " ZZ ".data ∉ statusCodes ∧ mapStatus " ZZ ".data = FileStatus.Modified :=
  ⟨by decide, c10_status_default_total " ZZ ".data (by decide)⟩

/-- The parse loop only ever appends to its accumulator. -/
theorem diffLoop_extends (fuel : Nat) :
    ∀ (buffer : List Char) (idx pointer : Nat) (acc : List DiffSection),
      ∃ r, diffLoop fuel buffer idx pointer acc = acc ++ r := by
  induction fuel with
  | zero =>
    intro buffer idx pointer acc
    exact ⟨[], by simp [diffLoop]⟩
  | succ f ih =>
    intro buffer idx pointer acc
    simp only [diffLoop]
    cases hnm : nextMarker (buffer.drop idx) with
    | some j =>
      dsimp only
      set dls := jsSplit '\n' ((buffer.drop idx).take j) with hdls
      set st := (if acc.isEmpty then 0 else pointer + 1) with hst
      obtain ⟨r, hr⟩ := ih (buffer.drop idx) j (pointer + dls.length)
        (acc ++ [DiffSection.make (parseRange (buffer.drop idx)) dls st (st + dls.length)])
      exact ⟨DiffSection.make (parseRange (buffer.drop idx)) dls st (st + dls.length) :: r,
        by rw [hr]; simp⟩
    | none =>
      dsimp only
      exact ⟨_, rfl⟩

/-- With at least one unit of fuel the parse loop pushes at least one
section. -/
theorem diffLoop_pushes (fuel : Nat) (buffer : List Char) (idx pointer : Nat)
    (acc : List DiffSection) (hfuel : 1 ≤ fuel) :
    ∃ sec r, diffLoop fuel buffer idx pointer acc = acc ++ sec :: r := by
  cases fuel with
  | zero => omega
  | succ f =>
    simp only [diffLoop]
    cases hnm : nextMarker (buffer.drop idx) with
    | some j =>
      dsimp only
      set dls := jsSplit '\n' ((buffer.drop idx).take j) with hdls
      set st := (if acc.isEmpty then 0 else pointer + 1) with hst
      obtain ⟨r, hr⟩ := diffLoop_extends f (buffer.drop idx) j (pointer + dls.length)
        (acc ++ [DiffSection.make (parseRange (buffer.drop idx)) dls st (st + dls.length)])
      exact ⟨DiffSection.make (parseRange (buffer.drop idx)) dls st (st + dls.length), r,
        by rw [hr]; simp⟩
    | none =>
      dsimp only
      exact ⟨_, [], rfl⟩

/-- C8, counterexample.  The claim reads: when the text at a marker fails
the pattern, the section gets all four range fields -1.  The regex is
executed with the multiline flag against the whole remaining buffer, so
with c8text, whose first header line fails the pattern but whose later
section has a valid header, the first section receives the later header's
numbers 1, 2, 3, 4 instead of the -1 sentinels. -/
theorem c8_malformed_header_counterexample :
    matchHunkHeader "@@ bad".data = none ∧
    (getDiffModel c8text).sections.map
        (fun s => (s.range.oldStartLine, s.range.oldEndLine, s.range.newStartLine,
          s.range.newEndLine)) =
      [(some 1, some 2, some 3, some 4), (some 1, some 2, some 3, some 4)] ∧
    ((some (1 : Int), some (2 : Int), some (3 : Int), some (4 : Int)) ≠
      (some (-1 : Int), some (-1 : Int), some (-1 : Int), some (-1 : Int))) :=
  ⟨by decide, by decide, by decide⟩

/-- C8: malformed header degradation, amended.  When no line of the
remaining buffer matches the hunk-header pattern, the section at the
current marker is still constructed, with all four range fields set to
the sentinel -1, and the loop goes on to parse subsequent sections
(another marker plus remaining fuel guarantee a further section); when
some later line does match, that line's numbers are used instead. -/
theorem c8_malformed_header_amended (fuel : Nat) (buffer : List Char) (idx pointer : Nat)
    (acc : List DiffSection) (hregex : execHunkRegex (buffer.drop idx) = none) :
    ∃ sec rest, diffLoop (fuel + 1) buffer idx pointer acc = acc ++ sec :: rest ∧
      sec.range = ⟨some (-1), some (-1), some (-1), some (-1)⟩ ∧
      (nextMarker (buffer.drop idx) ≠ none → 1 ≤ fuel → rest ≠ []) := by
  have hrange : parseRange (buffer.drop idx) = ⟨some (-1), some (-1), some (-1), some (-1)⟩ := by
    unfold parseRange
    rw [hregex]
  simp only [diffLoop]
  cases hnm : nextMarker (buffer.drop idx) with
  | some j =>
    dsimp only
    set dls := jsSplit '\n' ((buffer.drop idx).take j) with hdls
    set st := (if acc.isEmpty then 0 else pointer + 1) with hst
    obtain ⟨r, hr⟩ := diffLoop_extends fuel (buffer.drop idx) j (pointer + dls.length)
      (acc ++ [DiffSection.make (parseRange (buffer.drop idx)) dls st (st + dls.length)])
    refine ⟨DiffSection.make (parseRange (buffer.drop idx)) dls st (st + dls.length), r,
      by rw [hr]; simp, by simp [DiffSection.make, hrange], ?_⟩
    intro _ hfuel
    obtain ⟨sec', r', hr'⟩ := diffLoop_pushes fuel (buffer.drop idx) j (pointer + dls.length)
      (acc ++ [DiffSection.make (parseRange (buffer.drop idx)) dls st (st + dls.length)]) hfuel
    rw [hr'] at hr
    have hcancel : sec' :: r' = r := List.append_cancel_left hr
    rw [← hcancel]
    simp
  | none =>
    dsimp only
    refine ⟨DiffSection.make (parseRange (buffer.drop idx)) (jsSplit '\n' (buffer.drop idx))
      (if acc.isEmpty then 0 else pointer)
      ((if acc.isEmpty then 0 else pointer) + (jsSplit '\n' (buffer.drop idx)).length), [],
      rfl, by simp [DiffSection.make, hrange], ?_⟩
    intro hne _
    exact absurd rfl hne

/-- C8, witness: the amended theorem applied to a buffer whose lines all
fail the pattern and which holds a second marker. -/
theorem c8_malformed_header_witness :
    execHunkRegex (c8marker.drop 0) = none ∧
    (∃ sec rest, diffLoop (30 + 1) c8marker 0 0 [] = [] ++ sec :: rest ∧
      sec.range = ⟨some (-1), some (-1), some (-1), some (-1)⟩ ∧
      (nextMarker (c8marker.drop 0) ≠ none → 1 ≤ 30 → rest ≠ [])) :=
  ⟨by decide, c8_malformed_header_amended 30 c8marker 0 0 [] (by decide)⟩

/-- A successful single-character indexOf exposes the character at the
found position. -/
theorem jsIndexOfChar_some {s : List Char} {c : Char} {start p : Nat}
    (h : jsIndexOfChar s c start = some p) :
    start ≤ p ∧ ∃ t, s.drop p = c :: t := by
  have h2 := jsIndexOfPat_some h
  exact ⟨h2.1, leadsWith_single h2.2⟩

/-- A character sitting at position p of the buffer belongs to any take
that reaches past p. -/
theorem mem_take_of_drop_cons {buf : List Char} {p j : Nat} {c : Char} {t : List Char}
    (hd : buf.drop p = c :: t) (hpj : p < j) : c ∈ buf.take j := by
  have hplen : p < buf.length := by
    by_contra hcon
    push_neg at hcon
    rw [List.drop_eq_nil_of_le hcon] at hd
    cases hd
  have hbuf : buf.take p ++ c :: t = buf := by
    conv_rhs => rw [← List.take_append_drop p buf]
    rw [hd]
  have htlen : (buf.take p).length = p := by
    rw [List.length_take]
    omega
  rw [← hbuf, List.take_append_eq_append_take, htlen]
  apply List.mem_append_right
  obtain ⟨k, hk⟩ : ∃ k, j - p = k + 1 := ⟨j - p - 1, by omega⟩
  rw [hk, List.take_succ_cons]
  exact List.mem_cons_self _ _

/-- The invariant proof for the section indices produced by the parse
loop: whatever the fuel, the accumulated sections keep strictly ascending
start indices and a zero first start, provided the accumulator already
satisfies them and its last start sits below the running pointer (or at
the pointer with a newline-free buffer, the degenerate state the loop can
reach). -/
theorem diffLoop_starts (fuel : Nat) :
    ∀ (buffer : List Char) (idx pointer : Nat) (acc : List DiffSection),
      leadsWith hunkMarker (buffer.drop idx) = true →
      List.Chain' startLt acc →
      ((acc.head?).map (fun s => s.startDiffSection) = (acc.head?).map (fun _ => 0)) →
      (∀ sl ∈ acc.getLast?, sl.startDiffSection < pointer ∨
        (sl.startDiffSection = pointer ∧ jsIndexOfChar (buffer.drop idx) '\n' 0 = none)) →
      List.Chain' startLt (diffLoop fuel buffer idx pointer acc) ∧
      ((diffLoop fuel buffer idx pointer acc).head?).map (fun s => s.startDiffSection) =
        ((diffLoop fuel buffer idx pointer acc).head?).map (fun _ => 0) := by
  induction fuel with
  | zero =>
    intro buffer idx pointer acc _ hchain hhead _
    simpa [diffLoop] using ⟨hchain, hhead⟩
  | succ f ih =>
    intro buffer idx pointer acc hmark hchain hhead hlast
    have hLpos : 1 ≤ (jsSplit '\n' ((buffer.drop idx).take 0)).length := by
      have := jsSplit_ne_nil '\n' ((buffer.drop idx).take 0)
      exact List.length_pos.mpr this
    simp only [diffLoop]
    cases hnm : nextMarker (buffer.drop idx) with
    | none =>
      dsimp only
      have hnl : jsIndexOfChar (buffer.drop idx) '\n' 0 ≠ none := by
        intro hnl
        have hzero : nextMarker (buffer.drop idx) = some 0 := by
          unfold nextMarker
          rw [hnl]
          exact jsIndexOfPat_zero hmark
        rw [hnm] at hzero
        cases hzero
      have hxlt : ∀ x ∈ acc.getLast?, x.startDiffSection < pointer := by
        intro x hx
        rcases hlast x hx with h | ⟨_, hno⟩
        · exact h
        · exact absurd hno hnl
      cases acc with
      | nil =>
        constructor
        · simp [List.chain'_singleton]
        · simp [DiffSection.make]
      | cons a as =>
        constructor
        · rw [List.chain'_append]
          refine ⟨hchain, List.chain'_singleton _, ?_⟩
          intro x hx y hy
          simp only [List.head?_cons, Option.mem_def, Option.some.injEq] at hy
          subst hy
          have hlt := hxlt x hx
          simp only [startLt, DiffSection.make, List.isEmpty_cons, if_neg]
          simpa using hlt
        · simpa using hhead
    | some j =>
      dsimp only
      have hj : leadsWith hunkMarker ((buffer.drop idx).drop j) = true := by
        unfold nextMarker at hnm
        cases hnl : jsIndexOfChar (buffer.drop idx) '\n' 0 with
        | none =>
          rw [hnl] at hnm
          exact (jsIndexOfPat_some hnm).2
        | some p =>
          rw [hnl] at hnm
          exact (jsIndexOfPat_some hnm).2
      have hxle : ∀ x ∈ acc.getLast?, x.startDiffSection ≤ pointer := by
        intro x hx
        rcases hlast x hx with h | ⟨h, _⟩
        · omega
        · omega
      have hLtwo : ∀ p, jsIndexOfChar (buffer.drop idx) '\n' 0 = some p →
          2 ≤ (jsSplit '\n' ((buffer.drop idx).take j)).length := by
        intro p hnl
        obtain ⟨_, t, ht⟩ := jsIndexOfChar_some hnl
        have hj2 : p + 1 ≤ j := by
          unfold nextMarker at hnm
          rw [hnl] at hnm
          exact (jsIndexOfPat_some hnm).1
        exact two_le_jsSplit_length (mem_take_of_drop_cons ht (by omega))
      have hjzero : jsIndexOfChar (buffer.drop idx) '\n' 0 = none → j = 0 := by
        intro hnl
        unfold nextMarker at hnm
        rw [hnl] at hnm
        rw [jsIndexOfPat_zero hmark] at hnm
        cases hnm
        rfl
      cases acc with
      | nil =>
        refine ih _ _ _ _ hj ?_ ?_ ?_
        · simp [List.chain'_singleton]
        · simp [DiffSection.make]
        · intro sl hsl
          simp only [List.nil_append, List.getLast?_singleton, Option.mem_def,
            Option.some.injEq] at hsl
          subst hsl
          left
          have hpos : 0 < (jsSplit '\n' ((buffer.drop idx).take j)).length :=
            List.length_pos.mpr (jsSplit_ne_nil _ _)
          simp only [DiffSection.make, List.isEmpty_nil]
          simp
          omega
      | cons a as =>
        refine ih _ _ _ _ hj ?_ ?_ ?_
        · rw [List.chain'_append]
          refine ⟨hchain, List.chain'_singleton _, ?_⟩
          intro x hx y hy
          simp only [List.head?_cons, Option.mem_def, Option.some.injEq] at hy
          subst hy
          have hle := hxle x hx
          simp only [startLt, DiffSection.make, List.isEmpty_cons]
          simp
          omega
        · simp only [List.cons_append, List.head?_cons]
          simpa using hhead
        · intro sl hsl
          simp only [List.getLast?_concat, Option.mem_def, Option.some.injEq] at hsl
          subst hsl
          cases hnl : jsIndexOfChar (buffer.drop idx) '\n' 0 with
          | some p =>
            left
            have hL := hLtwo p hnl
            simp only [DiffSection.make, List.isEmpty_cons]
            simp
            omega
          | none =>
            right
            have hj0 := hjzero hnl
            constructor
            · rw [hj0]
              simp [DiffSection.make, jsSplit]
            · rw [hj0]
              simpa using hnl

/-- C9, counterexample.  The claim reads: each subsequent section's
startIndex continues exactly from the previous section's endIndex.  In a
three-section diff the sections come out at index ranges (0, 3), (4, 7)
and (6, 9): the second section starts one past the first's endIndex (a
gap) and the third starts one before the second's endIndex (an overlap). -/
theorem c9_section_indexing_counterexample :
    (getDiffModel c9text).sections.map
        (fun s => (s.startDiffSection, s.endDiffSection)) = [(0, 3), (4, 7), (6, 9)] ∧
    (4 : Nat) ≠ 3 ∧ (6 : Nat) < 7 :=
  ⟨by decide, by decide, by decide⟩

/-- C9: section index contiguity, amended.  For every parsed Diff the
sections do appear in strictly ascending startIndex order and the first
section, when one exists, has startIndex 0; but contiguity fails: in the
parsed three-section diff c9text the middle section starts one past the
first section's endIndex and the last section starts one before the
middle section's endIndex. -/
theorem c9_section_indexing_amended :
    (∀ result : List Char,
      List.Chain' startLt (getDiffModel result).sections ∧
      ((getDiffModel result).sections.head?).map (fun s => s.startDiffSection) =
        ((getDiffModel result).sections.head?).map (fun _ => 0)) ∧
    (getDiffModel c9text).sections.map
        (fun s => (s.startDiffSection, s.endDiffSection)) = [(0, 3), (4, 7), (6, 9)] := by
  constructor
  · intro result
    unfold getDiffModel getDiffFromText
    cases hidx : jsIndexOfPat ((jsSplit '\x00' result).getLastD []) hunkMarker 0 with
    | none => simp
    | some idx =>
      dsimp only
      refine diffLoop_starts _ _ _ _ _ (jsIndexOfPat_some hidx).2 List.chain'_nil rfl ?_
      intro sl hsl
      cases hsl
  · decide

end Desktop
